import Mathlib

/-!
Shallow embedding of the core of the Kiroflix Discord bot (`src/index.js`):
the subtitle chunking loop, the concurrent translation fan-out with indexed
result slots and a completion counter, the deterministic fallback intent
parser, the candidate resolver, and the subtitle-availability branch of the
message handler.  Strings are modelled as Lean `String`/`List Char`, JS
numbers on the digit strings the code extracts as `Nat`.
-/

namespace Kiroflix

/-! ### Line splitting (`vttText.split(/\r?\n/)`, index.js line 181)

JS `split` on the regex `\r?\n` cuts the text at every `\r\n` or bare `\n`
occurrence (leftmost, `\r\n` preferred when present); an empty string yields
the single-element list `[""]`. -/

/-- Accumulator-passing splitter: `acc` holds the current line reversed. -/
def splitLinesAux : List Char → List Char → List (List Char)
  | [], acc => [acc.reverse]
  | '\r' :: '\n' :: rest, acc => acc.reverse :: splitLinesAux rest []
  | '\n' :: rest, acc => acc.reverse :: splitLinesAux rest []
  | c :: rest, acc => splitLinesAux rest (c :: acc)

/-- Model of `vttText.split(/\r?\n/)` over the character list of the text. -/
def splitLines (cs : List Char) : List (List Char) :=
  splitLinesAux cs []

/-! ### Chunking (index.js lines 182-186)

```js
const chunkSize = 100;
const chunks = [];
for (let i = 0; i < lines.length; i += chunkSize) {
  chunks.push([i, Math.min(i + chunkSize - 1, lines.length - 1)]);
}
```
A chunk is the inclusive line range `[start, end]`. -/

/-- The chunking for-loop, from loop counter `i` over `L = lines.length`. -/
def chunkLoop (L i : Nat) : List (Nat × Nat) :=
  if i < L then (i, min (i + 99) (L - 1)) :: chunkLoop L (i + 100)
  else []
termination_by L - i

/-- The chunk list built for a transcript of `L` lines. -/
def chunks (L : Nat) : List (Nat × Nat) :=
  chunkLoop L 0

/-! ### JS whitespace and `trim`

The `\s` class and `String.prototype.trim` of JS cover ASCII whitespace plus
the Unicode space separators: we list the character set. -/

def jsWhitespace : List Char :=
  [' ', '\t', '\n', '\r', '\x0b', '\x0c', '\u00A0', '\u1680',
   '\u2000', '\u2001', '\u2002', '\u2003', '\u2004', '\u2005',
   '\u2006', '\u2007', '\u2008', '\u2009', '\u200A', '\u2028',
   '\u2029', '\u202F', '\u205F', '\u3000', '\uFEFF']

def isJsSpace (c : Char) : Bool := jsWhitespace.contains c

/-- Model of JS `String.prototype.trim`. -/
def trimList (cs : List Char) : List Char :=
  ((cs.dropWhile isJsSpace).reverse.dropWhile isJsSpace).reverse

def trimString (s : String) : String :=
  String.mk (trimList s.data)

/-! ### Translating phase (index.js lines 188-206)

```js
const results = new Array(chunks.length);
let completedChunks = 0;
await Promise.all(chunks.map(async ([start, end], index) => {
  try { ... results[index] = translated.trim(); }
  catch { results[index] = ""; }
  completedChunks++;
  const percent = Math.floor((completedChunks / chunks.length) * 100);
  await msg.edit(`... ${percent}%`);
}));
```
The translation service's response for chunk `i` is modelled as
`f i : Option String` (`none` = the request failed, i.e. the `catch` arm).
The event loop settles the chunk callbacks in some order, a list of chunk
indices; each callback stores its result into slot `index` of the results
array.  `Promise.all` guarantees every index settles before assembly. -/

/-- What the callback stores in `results[index]`: the trimmed response on
success, the empty string on failure. -/
def chunkResult : Option String → String
  | some t => trimString t
  | none => ""

/-- Folding the chunk-completion callbacks, in completion order `order`,
over the results array. -/
def runTranslations (f : Nat → Option String) (order : List Nat)
    (init : List String) : List String :=
  order.foldl (fun acc i => acc.set i (chunkResult (f i))) init

/-- The percentage shown after each settlement: the `k`-th entry is
`Math.floor(((k+1) / n) * 100)` — `completedChunks` is `k+1` after the
`k`-th callback runs. -/
def progressSeq (n : Nat) : List Nat :=
  (List.range n).map (fun k => ((k + 1) * 100) / n)

/-! ### Regex machinery for the fallback parser (index.js lines 84-93)

The fallback uses four regexes, all over ASCII literals with the `i` flag:
`/ep(?:isode)?\s*(\d+)/i`, `/ep(?:isode)?\s*\d+/i` (same span, no capture),
`/season\s*(\d+)/i`, `/subtitle(?: in)?\s*([a-zA-Z]+)/i`.
A `Matcher` tries the pattern anchored at the head of the input and returns
the capture together with the unconsumed suffix; `searchFrom` finds the
leftmost position where the matcher succeeds, exactly as JS `match` and
`replace` do.  Greedy `(?:...)?` groups try the present branch first and
backtrack when the tail of the pattern fails afterwards. -/

def Matcher (α : Type) : Type := List Char → Option (α × List Char)

def isDigitChar (c : Char) : Bool := '0' ≤ c && c ≤ '9'

def isAsciiAlpha (c : Char) : Bool :=
  ('a' ≤ c && c ≤ 'z') || ('A' ≤ c && c ≤ 'Z')

/-- Case-insensitive literal prefix stripping (`pat` given in lowercase). -/
def stripCI : List Char → List Char → Option (List Char)
  | [], cs => some cs
  | _ :: _, [] => none
  | p :: ps, c :: cs => if c.toLower = p then stripCI ps cs else none

/-- Tail `\s*(\d+)` of the episode and season patterns: greedy whitespace,
then at least one digit (the two classes are disjoint, so greediness needs
no backtracking here). -/
def wsThenDigits (cs : List Char) : Option (List Char × List Char) :=
  let rest := cs.dropWhile isJsSpace
  let ds := rest.takeWhile isDigitChar
  if ds.isEmpty then none else some (ds, rest.drop ds.length)

/-- Tail `\s*([a-zA-Z]+)` of the subtitle pattern. -/
def wsThenAlpha (cs : List Char) : Option (List Char × List Char) :=
  let rest := cs.dropWhile isJsSpace
  let ls := rest.takeWhile isAsciiAlpha
  if ls.isEmpty then none else some (ls, rest.drop ls.length)

/-- Anchored `ep(?:isode)?\s*(\d+)` with `i`: the optional `isode` is tried
first, and dropped if the digit tail then fails. -/
def epMatcher : Matcher (List Char) := fun cs =>
  match stripCI ['e', 'p'] cs with
  | none => none
  | some r1 =>
    match stripCI ['i', 's', 'o', 'd', 'e'] r1 with
    | some r2 =>
      match wsThenDigits r2 with
      | some x => some x
      | none => wsThenDigits r1
    | none => wsThenDigits r1

/-- Anchored `season\s*(\d+)` with `i`. -/
def seasonMatcher : Matcher (List Char) := fun cs =>
  match stripCI ['s', 'e', 'a', 's', 'o', 'n'] cs with
  | none => none
  | some r1 => wsThenDigits r1

/-- Anchored `subtitle(?: in)?\s*([a-zA-Z]+)` with `i`. -/
def subtitleMatcher : Matcher (List Char) := fun cs =>
  match stripCI ['s', 'u', 'b', 't', 'i', 't', 'l', 'e'] cs with
  | none => none
  | some r1 =>
    match stripCI [' ', 'i', 'n'] r1 with
    | some r2 =>
      match wsThenAlpha r2 with
      | some x => some x
      | none => wsThenAlpha r1
    | none => wsThenAlpha r1

/-- Leftmost match: returns `(prefixBeforeMatch, capture, suffixAfterMatch)`
for the first position where `m` succeeds, scanning left to right. -/
def searchFrom {α : Type} (m : Matcher α) :
    List Char → Option (List Char × α × List Char)
  | [] => (m []).map (fun x => ([], x.1, x.2))
  | c :: cs =>
    match m (c :: cs) with
    | some (a, r) => some ([], a, r)
    | none => (searchFrom m cs).map (fun x => (c :: x.1, x.2.1, x.2.2))

/-- JS `text.replace(re, "")` for a non-global regex: delete the leftmost
match, keep the text unchanged when there is none. -/
def replaceFirst {α : Type} (m : Matcher α) (cs : List Char) : List Char :=
  match searchFrom m cs with
  | some (p, _, r) => p ++ r
  | none => cs

/-- JS `Number` on the non-empty digit strings captured by `(\d+)`. -/
def digitsToNat (ds : List Char) : Nat :=
  ds.foldl (fun n c => n * 10 + (c.toNat - 48)) 0

/-! ### The fallback intent parser (index.js lines 84-93)

```js
const ep = text.match(/ep(?:isode)?\s*(\d+)/i)?.[1];
const season = text.match(/season\s*(\d+)/i)?.[1] || null;
const title = text.replace(/ep(?:isode)?\s*\d+/i, "").replace(/season\s*\d+/i, "").trim();
const subtitleMatch = text.match(/subtitle(?: in)?\s*([a-zA-Z]+)/i);
const subtitleLang = subtitleMatch ? subtitleMatch[1] : null;
if (title && ep) return { title, season, episode: Number(ep), subtitle: !!subtitleLang, subtitleLang };
return null;
```
`season` stays a digit string (the code never converts it); `episode` is
`Number(ep)`.  A non-empty string is truthy, so `title && ep` holds exactly
when the stripped-and-trimmed title is non-empty and the episode regex
matched (its capture `\d+` is never empty). -/

structure Intent where
  title : String
  season : Option String
  episode : Nat
  subtitle : Bool
  subtitleLang : Option String
deriving DecidableEq, Repr

def parseIntentFallback (text : String) : Option Intent :=
  let cs := text.data
  let ep := (searchFrom epMatcher cs).map (fun x => x.2.1)
  let season := (searchFrom seasonMatcher cs).map (fun x => x.2.1)
  let title := trimList (replaceFirst seasonMatcher (replaceFirst epMatcher cs))
  let subtitleLang := (searchFrom subtitleMatcher cs).map (fun x => x.2.1)
  match ep with
  | some d =>
    if title.isEmpty then none
    else
      some { title := String.mk title
             season := season.map String.mk
             episode := digitsToNat d
             subtitle := subtitleLang.isSome
             subtitleLang := subtitleLang.map String.mk }
  | none => none

/-! ### Candidate resolver (`chooseBestAnime`, index.js lines 108-120)

```js
const res = await askAI(prompt);
const id = res.match(/\d+/)?.[0];
return results.find(a => a.id === id) || results[0];
```
`askAI` catches every transport error and returns `""`, so the ranking
model's contribution is just an arbitrary response string; `\d+` grabs the
first maximal digit run.  On an empty candidate list the JS returns
`undefined`, hence the `Option` result. -/

structure Anime where
  id : String
  title : String
deriving DecidableEq, Repr

/-- First match of `/\d+/`: the leftmost maximal digit run. -/
def firstDigitRun : List Char → Option (List Char)
  | [] => none
  | c :: cs =>
    if isDigitChar c then some (c :: cs.takeWhile isDigitChar)
    else firstDigitRun cs

def chooseBestAnime (results : List Anime) (aiResponse : String) :
    Option Anime :=
  let id? := firstDigitRun aiResponse.data
  match results.find? (fun a =>
      match id? with
      | some ds => a.id == String.mk ds
      | none => false) with
  | some a => some a
  | none => results.head?

/-! ### Subtitle branch of the message handler (index.js lines 422-431)

```js
if (intent.subtitle) {
  const lang = intent.subtitleLang || "English";
  const subs = await fetchAvailableSubtitles(episode.id);
  const existing = subs.find(s => s.lang.toLowerCase() === lang.toLowerCase());
  if (existing) { await replyChannel.send(`🎯 Subtitle already available: ...`); }
  else { await generateDiscordSubtitle(replyChannel, episode.id, lang); }
}
```
The branch runs after the stream embed has already been sent; its effect is
either to announce an existing track or to invoke the generation pipeline,
never to alter the stream result. -/

structure SubTrack where
  lang : String
deriving DecidableEq, Repr

structure StreamResult where
  player : String
  master : String
  subtitle : Option String
deriving DecidableEq, Repr

/-- Model of JS `String.prototype.toLowerCase` on the ASCII strings in play. -/
def toLowerStr (s : String) : String :=
  String.mk (s.data.map Char.toLower)

/-- `intent.subtitleLang || "English"`: both `null` and the empty string are
falsy in JS. -/
def langOrEnglish : Option String → String
  | some l => if l = "" then "English" else l
  | none => "English"

inductive SubtitleAction where
  | skipExisting (track : SubTrack)
  | generate (lang : String)
deriving DecidableEq, Repr

/-- What the subtitle branch decides to do (`none` when no subtitle was
requested). -/
def subtitleStep (intent : Intent) (subs : List SubTrack) :
    Option SubtitleAction :=
  if intent.subtitle then
    let lang := langOrEnglish intent.subtitleLang
    match subs.find? (fun s => toLowerStr s.lang == toLowerStr lang) with
    | some t => some (SubtitleAction.skipExisting t)
    | none => some (SubtitleAction.generate lang)
  else none

/-- Outcome of the tail of the message handler: once the stream embed is
sent, the outcome is a success carrying the stream result, and the subtitle
branch only adds its action. -/
inductive Outcome where
  | understood (stream : StreamResult) (subtitleAction : Option SubtitleAction)
  | couldNotUnderstand
  | notFound
  | noEpisodes
  | streamUnavailable
deriving DecidableEq, Repr

def orchestrateSubtitlePhase (stream : StreamResult) (intent : Intent)
    (subs : List SubTrack) : Outcome :=
  Outcome.understood stream (subtitleStep intent subs)

/-! ## Helper lemmas -/

/-- The split of any text has at least one line (JS `split` never returns
an empty array). -/
theorem splitLinesAux_length_pos (cs acc : List Char) :
    1 ≤ (splitLinesAux cs acc).length := by
  induction cs, acc using splitLinesAux.induct with
  | case1 acc' => simp [splitLinesAux]
  | case2 rest acc' ih => simp [splitLinesAux]
  | case3 rest acc' ih => simp [splitLinesAux]
  | case4 c rest h1 h2 acc' ih => simpa [splitLinesAux] using ih

theorem splitLines_length_pos (cs : List Char) : 1 ≤ (splitLines cs).length :=
  splitLinesAux_length_pos cs []

/-- Closed form of the chunking loop. -/
theorem chunkLoop_eq (L i : Nat) :
    chunkLoop L i =
      (List.range ((L - i + 99) / 100)).map
        (fun k => (i + 100 * k, min (i + 100 * k + 99) (L - 1))) := by
  rw [chunkLoop]
  split
  · rw [chunkLoop_eq L (i + 100)]
    have hn : (L - i + 99) / 100 = (L - (i + 100) + 99) / 100 + 1 := by omega
    rw [hn, List.range_succ_eq_map, List.map_cons, List.map_map]
    refine congrArg₂ _ (by simp) ?_
    refine List.map_congr_left (fun k _ => ?_)
    simp only [Function.comp_apply, Nat.succ_eq_add_one, Prod.mk.injEq]
    omega
  · have h0 : (L - i + 99) / 100 = 0 := by omega
    rw [h0]
    simp
termination_by L - i

/-- Closed form of `chunks`. -/
theorem chunks_eq (L : Nat) :
    chunks L =
      (List.range ((L + 99) / 100)).map
        (fun k => (100 * k, min (100 * k + 99) (L - 1))) := by
  rw [chunks, chunkLoop_eq]
  simp

theorem chunks_length (L : Nat) : (chunks L).length = (L + 99) / 100 := by
  rw [chunks_eq]
  simp

theorem chunks_getD (L k : Nat) (hk : k < (L + 99) / 100) :
    (chunks L).getD k (0, 0) = (100 * k, min (100 * k + 99) (L - 1)) := by
  rw [chunks_eq, List.getD_eq_getElem?_getD, List.getElem?_map,
    List.getElem?_range hk]
  rfl

theorem foldl_set_length (g : Nat → String) (order : List Nat)
    (acc : List String) :
    (order.foldl (fun a i => a.set i (g i)) acc).length = acc.length := by
  induction order generalizing acc with
  | nil => rfl
  | cons i rest ih => simp [List.foldl_cons, ih]

theorem foldl_set_getD (g : Nat → String) (order : List Nat)
    (acc : List String) (j : Nat) (hj : j < acc.length) :
    (order.foldl (fun a i => a.set i (g i)) acc).getD j "" =
      if j ∈ order then g j else acc.getD j "" := by
  induction order generalizing acc with
  | nil => simp
  | cons i rest ih =>
    rw [List.foldl_cons, ih (acc.set i (g i)) (by simpa using hj)]
    by_cases hmem : j ∈ rest
    · simp [hmem]
    · by_cases hij : j = i
      · subst hij
        simp [hmem, List.getD_eq_getElem?_getD, List.getElem?_set, hj]
      · simp [hmem, hij, List.getD_eq_getElem?_getD, List.getElem?_set,
          Ne.symm hij]

/-- The results array after all settlements equals the per-index map,
whatever the completion order, provided every index settled. -/
theorem runTranslations_spec (f : Nat → Option String) (order : List Nat)
    (n : Nat) (hcover : ∀ j, j < n → j ∈ order) :
    runTranslations f order (List.replicate n "") =
      (List.range n).map (fun i => chunkResult (f i)) := by
  apply List.ext_getElem
  · have hlen := foldl_set_length (fun i => chunkResult (f i)) order
      (List.replicate n "")
    simpa [runTranslations] using hlen
  · intro j h1 h2
    have hjn : j < n := by
      simpa using h2
    have hlen : j < (List.replicate n "").length := by simpa using hjn
    have hD := foldl_set_getD (fun i => chunkResult (f i)) order
      (List.replicate n "") j hlen
    rw [if_pos (hcover j hjn)] at hD
    have hL : (runTranslations f order (List.replicate n "")).getD j "" =
        chunkResult (f j) := hD
    rw [← List.getD_eq_getElem _ "" h1, ← List.getD_eq_getElem _ "" h2]
    rw [hL, List.getD_eq_getElem?_getD, List.getElem?_map,
      List.getElem?_range hjn]
    rfl

/-! ## Claim theorems -/

/-- C1: for every transcript of `L >= 1` lines, the chunking loop produces
exactly `ceil(L/100)` chunks; the `k`-th chunk is the line range
`[100k, min(100k+99, L-1)]`, so chunks are in ascending line order, their
ranges are pairwise disjoint and cover `[0, L)` exactly once (line `j` lies
in chunk `k` iff `k = j / 100`), every chunk except the last spans exactly
100 lines, and the last spans `L mod 100` lines (or 100 when `L` is a
multiple of 100). -/
theorem chunking_partition (L : Nat) (hL : 1 ≤ L) :
    (chunks L).length = (L + 99) / 100 ∧
    (∀ k, k < (chunks L).length →
      (chunks L).getD k (0, 0) = (100 * k, min (100 * k + 99) (L - 1))) ∧
    (∀ j, j < L → j / 100 < (chunks L).length) ∧
    (∀ j, j < L → ∀ k, k < (chunks L).length →
      ((((chunks L).getD k (0, 0)).1 ≤ j ∧
        j ≤ ((chunks L).getD k (0, 0)).2) ↔ k = j / 100)) ∧
    (∀ k, k + 1 < (chunks L).length →
      ((chunks L).getD k (0, 0)).2 + 1 - ((chunks L).getD k (0, 0)).1
        = 100) ∧
    ((chunks L).getD ((chunks L).length - 1) (0, 0)).2 + 1 -
        ((chunks L).getD ((chunks L).length - 1) (0, 0)).1 =
      (if L % 100 = 0 then 100 else L % 100) := by
  have hlen := chunks_length L
  refine ⟨hlen, ?_, ?_, ?_, ?_, ?_⟩
  · intro k hk
    exact chunks_getD L k (by omega)
  · intro j hj
    rw [hlen]
    omega
  · intro j hj k hk
    rw [hlen] at hk
    rw [chunks_getD L k hk]
    simp only
    omega
  · intro k hk
    rw [hlen] at hk
    rw [chunks_getD L k (by omega)]
    simp only
    omega
  · rw [hlen]
    have hN : 1 ≤ (L + 99) / 100 := by omega
    rw [chunks_getD L ((L + 99) / 100 - 1) (by omega)]
    simp only
    split <;> omega

/-- Witness for C1 at a transcript of 250 lines. -/
theorem chunking_partition_witness : 1 ≤ 250 ∧ (chunks 250).length = 3 :=
  ⟨by decide, by
    have h := (chunking_partition 250 (by decide)).1
    exact h.trans (by norm_num)⟩

/-- C2: for every non-empty candidate list and every ranking-model output
(including the empty string a transport failure turns into, garbage text,
or an id matching no candidate), `chooseBestAnime` returns an element of
the supplied list. -/
theorem resolver_returns_member (results : List Anime) (resp : String)
    (h : results ≠ []) :
    ∃ a, chooseBestAnime results resp = some a ∧ a ∈ results := by
  have hdef : chooseBestAnime results resp =
      match results.find? (fun a =>
          match firstDigitRun resp.data with
          | some ds => a.id == String.mk ds
          | none => false) with
      | some a => some a
      | none => results.head? := rfl
  rw [hdef]
  cases hfind : results.find? (fun a =>
      match firstDigitRun resp.data with
      | some ds => a.id == String.mk ds
      | none => false) with
  | some a => exact ⟨a, rfl, List.mem_of_find?_eq_some hfind⟩
  | none =>
    cases results with
    | nil => exact absurd rfl h
    | cons x xs => exact ⟨x, rfl, List.mem_cons_self x xs⟩

/-- Witness for C2: a two-candidate list and a response naming a listed id. -/
theorem resolver_returns_member_witness :
    ([⟨"12", "A"⟩, ⟨"7", "B"⟩] : List Anime) ≠ [] ∧
    ∃ a, chooseBestAnime [⟨"12", "A"⟩, ⟨"7", "B"⟩] "pick 7" = some a ∧
      a ∈ ([⟨"12", "A"⟩, ⟨"7", "B"⟩] : List Anime) :=
  ⟨by decide, resolver_returns_member _ _ (by decide)⟩

/-- C3: the assembled content (results joined with newlines) is the
forward-index-order join, for every chunk completion order that settles
every index — completion order does not matter. -/
theorem assembly_order_invariant (n : Nat) (f : Nat → Option String)
    (order : List Nat) (hcover : ∀ j, j < n → j ∈ order) :
    String.intercalate "\n" (runTranslations f order (List.replicate n "")) =
      String.intercalate "\n"
        ((List.range n).map (fun i => chunkResult (f i))) := by
  rw [runTranslations_spec f order n hcover]

/-- Witness for C3 at three chunks completing in reverse index order. -/
theorem assembly_order_invariant_witness :
    (∀ j, j < 3 → j ∈ [2, 1, 0]) ∧
    String.intercalate "\n"
        (runTranslations (fun i => some (toString i)) [2, 1, 0]
          (List.replicate 3 "")) =
      String.intercalate "\n"
        ((List.range 3).map (fun i => chunkResult (some (toString i)))) :=
  ⟨by decide, assembly_order_invariant 3 _ [2, 1, 0] (by decide)⟩

/-- C4: a failed chunk is recorded as the empty string at its index, the
other chunks keep their own results, the assembled content is still the
full forward-order join (with an empty segment at the failed index), and
the last progress update is 100. -/
theorem chunk_failure_degrades (n : Nat) (f : Nat → Option String)
    (order : List Nat) (i : Nat) (hi : i < n)
    (hcover : ∀ j, j < n → j ∈ order) (hfail : f i = none) :
    (runTranslations f order (List.replicate n "")).length = n ∧
    (runTranslations f order (List.replicate n "")).getD i "" = "" ∧
    (∀ j, j < n →
      (runTranslations f order (List.replicate n "")).getD j "" =
        chunkResult (f j)) ∧
    String.intercalate "\n" (runTranslations f order (List.replicate n "")) =
      String.intercalate "\n"
        ((List.range n).map (fun j => chunkResult (f j))) ∧
    (progressSeq n).getD (n - 1) 0 = 100 := by
  have hspec := runTranslations_spec f order n hcover
  have hgetD : ∀ j, j < n →
      (runTranslations f order (List.replicate n "")).getD j "" =
        chunkResult (f j) := by
    intro j hj
    rw [hspec, List.getD_eq_getElem?_getD, List.getElem?_map,
      List.getElem?_range hj]
    rfl
  refine ⟨?_, ?_, hgetD, ?_, ?_⟩
  · rw [hspec]
    simp
  · rw [hgetD i hi, hfail]
    rfl
  · rw [hspec]
  · rw [progressSeq, List.getD_eq_getElem?_getD, List.getElem?_map,
      List.getElem?_range (show n - 1 < n by omega)]
    have hsucc : n - 1 + 1 = n := by omega
    simp only [Option.map_some', Option.getD_some, hsucc]
    exact Nat.mul_div_cancel_left 100 (show 0 < n by omega)

/-- Witness for C4: two chunks, chunk 0 fails, completions in reverse
order. -/
theorem chunk_failure_degrades_witness :
    0 < 2 ∧ (∀ j, j < 2 → j ∈ [1, 0]) ∧
    (runTranslations (fun j => if j = 0 then (none : Option String)
        else some "x") [1, 0] (List.replicate 2 "")).getD 0 "" = "" :=
  ⟨by decide, by decide,
    (chunk_failure_degrades 2 _ [1, 0] 0 (by decide) (by decide) rfl).2.1⟩

/-- C6: the progress percentages are emitted once per chunk settlement (so
`n` updates for `n` chunks), depend only on the completion count — hence
are monotonically non-decreasing in every completion order — and a reported
percentage equals 100 exactly when all chunks have completed. -/
theorem progress_updates (n : Nat) (hn : 1 ≤ n) :
    (progressSeq n).length = n ∧
    (∀ a b, a ≤ b → b < n →
      (progressSeq n).getD a 0 ≤ (progressSeq n).getD b 0) ∧
    (∀ k, k < n → ((progressSeq n).getD k 0 = 100 ↔ k + 1 = n)) := by
  have hget : ∀ k, k < n → (progressSeq n).getD k 0 = ((k + 1) * 100) / n := by
    intro k hk
    rw [progressSeq, List.getD_eq_getElem?_getD, List.getElem?_map,
      List.getElem?_range hk]
    rfl
  refine ⟨by simp [progressSeq], ?_, ?_⟩
  · intro a b hab hb
    rw [hget a (lt_of_le_of_lt hab hb), hget b hb]
    exact Nat.div_le_div_right (by omega)
  · intro k hk
    rw [hget k hk]
    constructor
    · intro h
      by_contra hne
      have hlt : (k + 1) * 100 / n < 100 := by
        rw [Nat.div_lt_iff_lt_mul (show 0 < n by omega)]
        omega
      omega
    · intro h
      rw [h]
      exact Nat.mul_div_cancel_left 100 (show 0 < n by omega)

/-- Witness for C6 at four chunks: the last update reads 100. -/
theorem progress_updates_witness : 1 ≤ 4 ∧ (progressSeq 4).getD 3 0 = 100 :=
  ⟨by decide, ((progress_updates 4 (by decide)).2.2 3 (by decide)).mpr rfl⟩

/-- Unfolding of the fallback parser by cases on the episode match. -/
theorem parseIntentFallback_eq (text : String) :
    parseIntentFallback text =
      match searchFrom epMatcher text.data with
      | some x =>
        if (trimList (replaceFirst seasonMatcher
            (replaceFirst epMatcher text.data))).isEmpty then none
        else some
          { title := String.mk (trimList (replaceFirst seasonMatcher
              (replaceFirst epMatcher text.data)))
            season := ((searchFrom seasonMatcher text.data).map
              (fun x => x.2.1)).map String.mk
            episode := digitsToNat x.2.1
            subtitle := ((searchFrom subtitleMatcher text.data).map
              (fun x => x.2.1)).isSome
            subtitleLang := ((searchFrom subtitleMatcher text.data).map
              (fun x => x.2.1)).map String.mk }
      | none => none := by
  cases hx : searchFrom epMatcher text.data with
  | none => simp [parseIntentFallback, hx]
  | some x => simp [parseIntentFallback, hx]

/-- C5: the deterministic fallback of `parseIntent` returns a non-null
intent exactly when the episode pattern `ep(isode) N` matched somewhere in
the text and the title left over after deleting the episode and season
spans and trimming is non-empty; in particular any text failing either
condition yields null. -/
theorem fallback_result_policy (text : String) :
    (parseIntentFallback text).isSome = true ↔
      ((searchFrom epMatcher text.data).isSome = true ∧
        trimList (replaceFirst seasonMatcher
          (replaceFirst epMatcher text.data)) ≠ []) := by
  rw [parseIntentFallback_eq]
  cases searchFrom epMatcher text.data with
  | none => simp
  | some x =>
    by_cases ht : (trimList (replaceFirst seasonMatcher
        (replaceFirst epMatcher text.data))).isEmpty
    · simp [ht, List.isEmpty_iff.mp ht]
    · simp only [if_neg ht]
      simp only [List.isEmpty_iff] at ht
      simp [ht]

/-- C8 counterexample: on the text `"naruto episode 0"` the fallback
returns an intent whose `episode` field is `0`, refuting the invariant
that a present episode is a positive integer. -/
theorem fallback_episode_zero :
    parseIntentFallback "naruto episode 0" =
      some { title := "naruto", season := none, episode := 0,
             subtitle := false, subtitleLang := none } ∧
    ¬ (∀ i : Intent, parseIntentFallback "naruto episode 0" = some i →
        1 ≤ i.episode) := by
  refine ⟨rfl, fun h => ?_⟩
  have h0 := h { title := "naruto", season := none, episode := 0,
                 subtitle := false, subtitleLang := none } rfl
  exact absurd h0 (by decide)

/-- C8 (amended): whenever the fallback returns an intent, the episode
pattern matched and the `episode` field is the numeric value of the
captured digit string — a non-negative integer that can be `0` (for
example on `"naruto episode 0"`), so positivity does not hold in general. -/
theorem fallback_episode_value (text : String) (i : Intent)
    (h : parseIntentFallback text = some i) :
    (searchFrom epMatcher text.data).isSome = true ∧
    i.episode = digitsToNat
      (((searchFrom epMatcher text.data).map (fun x => x.2.1)).getD []) := by
  rw [parseIntentFallback_eq] at h
  cases hep : searchFrom epMatcher text.data with
  | none =>
    rw [hep] at h
    simp at h
  | some x =>
    rw [hep] at h
    simp only at h
    split at h
    · exact absurd h (by simp)
    · refine ⟨rfl, ?_⟩
      have hrec := Option.some.inj h
      rw [← hrec]
      rfl

/-- Witness for C8 (amended) on the text `"naruto episode 12"`. -/
theorem fallback_episode_value_witness :
    parseIntentFallback "naruto episode 12" =
      some { title := "naruto", season := none, episode := 12,
             subtitle := false, subtitleLang := none } ∧
    (12 : Nat) = digitsToNat
      (((searchFrom epMatcher "naruto episode 12".data).map
        (fun x => x.2.1)).getD []) :=
  ⟨rfl, (fallback_episode_value "naruto episode 12"
    { title := "naruto", season := none, episode := 12,
      subtitle := false, subtitleLang := none } rfl).2⟩

/-- C7 counterexample: the empty transcript splits into one (empty) line,
so the chunking step produces the single chunk `[0, 0]`, not zero chunks. -/
theorem empty_transcript_chunk :
    splitLines "".data = [[]] ∧
    (splitLines "".data).length = 1 ∧
    chunks (splitLines "".data).length = [(0, 0)] ∧
    (chunks (splitLines "".data).length).length ≠ 0 := by
  refine ⟨rfl, rfl, ?_, ?_⟩
  · rw [show (splitLines "".data).length = 1 from rfl, chunks_eq]
    decide
  · rw [show (splitLines "".data).length = 1 from rfl, chunks_length]
    norm_num

/-- C7 (amended): the empty transcript yields exactly one chunk, covering
the single empty line; one translation request is dispatched for it, and
the assembled content is that chunk's result — the service's trimmed
response, or the empty string when the request fails. -/
theorem empty_transcript_single_chunk (f : Nat → Option String) :
    (chunks (splitLines "".data).length).length = 1 ∧
    chunks (splitLines "".data).length = [(0, 0)] ∧
    runTranslations f [0] (List.replicate 1 "") = [chunkResult (f 0)] ∧
    String.intercalate "\n" (runTranslations f [0] (List.replicate 1 "")) =
      chunkResult (f 0) := by
  have hone : runTranslations f [0] (List.replicate 1 "") =
      [chunkResult (f 0)] := by
    simp [runTranslations]
  refine ⟨?_, ?_, hone, ?_⟩
  · rw [show (splitLines "".data).length = 1 from rfl, chunks_length]
  · rw [show (splitLines "".data).length = 1 from rfl, chunks_eq]
    decide
  · rw [hone]
    rfl

/-- C9: when a subtitle is requested and some available track matches the
requested language case-insensitively, the handler announces the existing
track and does not invoke the generation pipeline; the outcome remains the
already-produced stream result. -/
theorem subtitle_skip_existing (stream : StreamResult) (intent : Intent)
    (subs : List SubTrack) (hreq : intent.subtitle = true) (t : SubTrack)
    (ht : t ∈ subs)
    (hlang : toLowerStr t.lang =
      toLowerStr (langOrEnglish intent.subtitleLang)) :
    ∃ t2, t2 ∈ subs ∧
      subtitleStep intent subs = some (SubtitleAction.skipExisting t2) ∧
      orchestrateSubtitlePhase stream intent subs =
        Outcome.understood stream (some (SubtitleAction.skipExisting t2)) ∧
      (∀ l, subtitleStep intent subs ≠ some (SubtitleAction.generate l)) := by
  have hsome : (subs.find? (fun s => toLowerStr s.lang ==
      toLowerStr (langOrEnglish intent.subtitleLang))).isSome = true := by
    rw [List.find?_isSome]
    exact ⟨t, ht, by simp [hlang]⟩
  cases hf : subs.find? (fun s => toLowerStr s.lang ==
      toLowerStr (langOrEnglish intent.subtitleLang)) with
  | none =>
    rw [hf] at hsome
    simp at hsome
  | some t2 =>
    have hstep : subtitleStep intent subs =
        some (SubtitleAction.skipExisting t2) := by
      unfold subtitleStep
      rw [if_pos hreq]
      simp only [hf]
    exact ⟨t2, List.mem_of_find?_eq_some hf, hstep,
      by rw [orchestrateSubtitlePhase, hstep],
      fun l hl => by rw [hstep] at hl; simp at hl⟩

/-- Witness for C9: a French request with a French track already listed. -/
theorem subtitle_skip_existing_witness :
    orchestrateSubtitlePhase ⟨"p", "m", none⟩
      { title := "one piece", season := none, episode := 1,
        subtitle := true, subtitleLang := some "french" } [⟨"French"⟩] =
      Outcome.understood ⟨"p", "m", none⟩
        (some (SubtitleAction.skipExisting ⟨"French"⟩)) := by
  obtain ⟨t2, ht2, _, heq, _⟩ := subtitle_skip_existing ⟨"p", "m", none⟩
    { title := "one piece", season := none, episode := 1,
      subtitle := true, subtitleLang := some "french" } [⟨"French"⟩]
    rfl ⟨"French"⟩ (by decide) (by decide)
  rw [List.mem_singleton] at ht2
  rw [ht2] at heq
  exact heq

/-- C10: when a subtitle is requested but no language was captured (absent
or empty), the handler uses `"English"` both for the availability
comparison and as the generation target, instead of failing or skipping. -/
theorem subtitle_language_defaults_english (intent : Intent)
    (subs : List SubTrack) (hreq : intent.subtitle = true)
    (habs : intent.subtitleLang = none ∨ intent.subtitleLang = some "") :
    langOrEnglish intent.subtitleLang = "English" ∧
    subtitleStep intent subs =
      (match subs.find? (fun s =>
          toLowerStr s.lang == toLowerStr "English") with
        | some t => some (SubtitleAction.skipExisting t)
        | none => some (SubtitleAction.generate "English")) := by
  have hlang : langOrEnglish intent.subtitleLang = "English" := by
    rcases habs with h | h <;> simp [langOrEnglish, h]
  refine ⟨hlang, ?_⟩
  unfold subtitleStep
  rw [if_pos hreq, hlang]

/-- Witness for C10: subtitle requested with no language and no available
tracks generates English. -/
theorem subtitle_language_defaults_english_witness :
    subtitleStep { title := "naruto", season := none, episode := 1,
                   subtitle := true, subtitleLang := none } [] =
      some (SubtitleAction.generate "English") := by
  have h := (subtitle_language_defaults_english
    { title := "naruto", season := none, episode := 1,
      subtitle := true, subtitleLang := none } [] rfl (Or.inl rfl)).2
  exact h

end Kiroflix
